import Mathlib

/-!
# Verification of the straight-cash-app dashboard services

A shallow embedding of the client-side "store + sync" services of the
dashboard repository, together with theorems settling the specification
claims about them.

Embedding conventions:
* JavaScript `Date` values and `Date.now()` timestamps are modelled as `Int`
  milliseconds since the epoch; clock reads are passed in explicitly as a
  `now` argument (the code is single-threaded and each service method reads
  the clock during its synchronous run).
* Optional TypeScript fields (`field?: T`) are modelled as `Option T`;
  JavaScript truthiness of such fields is modelled by `jsTruthyBool` /
  `jsTruthyNum` (note `0` and `undefined` are both falsy).
* `localStorage` plus the `BehaviorSubject` are modelled as a store state
  holding the in-memory snapshot and the durable blob; a `localStorage`
  write that throws (quota) is modelled by the `ok : Bool` flag of the
  save function.
* `JSON.parse` and the remote HTTP APIs are browser/provider primitives
  (outside the repository); they enter the model as oracle inputs: a
  `ParsedJson` outcome for imports, a `fetch` function for remote reads,
  header values for rate limits.
-/

namespace App

/-- JavaScript truthiness of an optional boolean field
(`task.isTimeRunning`): only a present `true` is truthy. -/
def jsTruthyBool : Option Bool → Bool
  | some b => b
  | none => false

/-- JavaScript truthiness of an optional numeric field
(`task.timeStartedAt`): `undefined` and `0` are falsy. -/
def jsTruthyNum : Option Int → Bool
  | some n => n != 0
  | none => false

/-- JavaScript `a || b` for an optional string `a`: the empty string is
falsy, so it falls through to the default. -/
def jsOrStr : Option String → String → String
  | some s, d => if s = "" then d else s
  | none, d => d

/-- JavaScript `Math.floor(a / b)` for integers with `b > 0`:
floor division (rounds toward negative infinity). -/
def jsFloorDiv (a b : Int) : Int := Int.fdiv a b

/-- JavaScript `Math.ceil(a / b)` for integers with `b > 0`:
ceiling division. -/
def jsCeilDiv (a b : Int) : Int := -(Int.fdiv (-a) b)

/-- `priority?: 'low' | 'medium' | 'high'` from `task.service.ts`. -/
inductive TaskPriority where
  | low
  | medium
  | high
deriving DecidableEq, Repr

/-- The `Task` interface of `task.service.ts`.  Date-valued fields carry
epoch milliseconds; `timeTracked` is in whole seconds as in the source. -/
structure Task where
  id : String
  title : String
  description : Option String := none
  completed : Bool := false
  dueDate : Option Int := none
  createdAt : Int := 0
  completedAt : Option Int := none
  priority : Option TaskPriority := none
  tags : Option (List String) := none
  timeTracked : Option Int := none
  isTimeRunning : Option Bool := none
  timeStartedAt : Option Int := none
deriving DecidableEq, Repr

/-- The ids of a task collection, in order. -/
def taskIds (tasks : List Task) : List String := tasks.map (fun t => t.id)

/-- Number of tasks whose running flag is truthy
(`tasks.filter(t => t.isTimeRunning).length`). -/
def countRunning (tasks : List Task) : Nat :=
  tasks.countP (fun t => jsTruthyBool t.isTimeRunning)

/-- `stopTimeTracking` of `task.service.ts` at the collection level:
look the task up, return the collection unchanged if it is absent, not
running, or has a falsy (absent or zero) start instant; otherwise add the
elapsed whole seconds to its accumulated total and clear the running
state. -/
def stopTimeTracking (now : Int) (id : String) (tasks : List Task) : List Task :=
  match tasks.find? (fun t => t.id = id) with
  | none => tasks
  | some task =>
    if ¬ (jsTruthyBool task.isTimeRunning ∧ jsTruthyNum task.timeStartedAt) then tasks
    else
      let sessionTime := jsFloorDiv (now - task.timeStartedAt.getD 0) 1000
      let totalTime := task.timeTracked.getD 0 + sessionTime
      tasks.map (fun t =>
        if t.id = id then
          { t with isTimeRunning := some false, timeStartedAt := none,
                   timeTracked := some totalTime }
        else t)

/-- `startTimeTracking` of `task.service.ts` at the collection level:
first stop every task whose running flag is truthy (reading the updated
collection between stops, as the service does through its subject), then
set the running state of the task with the given id. -/
def startTimeTracking (now : Int) (id : String) (tasks : List Task) : List Task :=
  let runningTasks := tasks.filter (fun t => jsTruthyBool t.isTimeRunning)
  let afterStops := runningTasks.foldl (fun acc t => stopTimeTracking now t.id acc) tasks
  afterStops.map (fun t =>
    if t.id = id then
      { t with isTimeRunning := some true, timeStartedAt := some now,
               timeTracked := some (t.timeTracked.getD 0) }
    else t)

/-- `toggleTimeTracking` of `task.service.ts`: stop when the task's
running flag is truthy, start otherwise; no-op on an absent id. -/
def toggleTimeTracking (now : Int) (id : String) (tasks : List Task) : List Task :=
  match tasks.find? (fun t => t.id = id) with
  | none => tasks
  | some task =>
    if jsTruthyBool task.isTimeRunning then stopTimeTracking now id tasks
    else startTimeTracking now id tasks

/-- One user-level timer operation together with the clock instant at
which it runs. -/
inductive TimerOp where
  | start (now : Int) (id : String)
  | stop (now : Int) (id : String)
  | toggle (now : Int) (id : String)
deriving DecidableEq, Repr

/-- The clock instant of a timer operation. -/
def TimerOp.time : TimerOp → Int
  | .start now _ => now
  | .stop now _ => now
  | .toggle now _ => now

/-- Apply one timer operation to the collection. -/
def applyTimerOp (op : TimerOp) (tasks : List Task) : List Task :=
  match op with
  | .start now id => startTimeTracking now id tasks
  | .stop now id => stopTimeTracking now id tasks
  | .toggle now id => toggleTimeTracking now id tasks

/-- Apply a sequence of timer operations in order. -/
def applyTimerOps (ops : List TimerOp) (tasks : List Task) : List Task :=
  ops.foldl (fun acc op => applyTimerOp op acc) tasks

/-- Well-formedness of the timer fields: every task whose running flag is
truthy carries a truthy (present, nonzero) start instant.  Every state
produced by the timer operations themselves satisfies this; it can be
broken only through `updateTask` / `importFromJson`. -/
def WFtimers (tasks : List Task) : Prop :=
  ∀ t ∈ tasks, jsTruthyBool t.isTimeRunning = true → jsTruthyNum t.timeStartedAt = true

instance : DecidablePred WFtimers := fun tasks =>
  inferInstanceAs (Decidable (∀ t ∈ tasks, _ → _))

/-- At most one task of the collection has a truthy running flag. -/
def AtMostOneRunning (tasks : List Task) : Prop := countRunning tasks ≤ 1

instance : DecidablePred AtMostOneRunning := fun tasks =>
  inferInstanceAs (Decidable (countRunning tasks ≤ 1))

/-! ## Sprint urgency bucketing
(`getSprintInfo` of `ai-priority-summary.component.ts`) -/

/-- The urgency levels of `getSprintInfo`. -/
inductive UrgencyLevel where
  | overdue
  | critical
  | warning
  | current
  | future
  | none
deriving DecidableEq, Repr

/-- `daysRemaining` of `getSprintInfo`: `Math.ceil` of the millisecond
difference between the midnight-normalized end date and midnight-today,
divided by one day of milliseconds. -/
def sprintDaysRemaining (endDateN today : Int) : Int :=
  jsCeilDiv (endDateN - today) 86400000

/-- The urgency branch of `getSprintInfo`, taking the midnight-normalized
start date (when one was parsed), the midnight-normalized end date, and
midnight-today, all in epoch milliseconds.  A start date strictly after
today wins over every days-remaining bucket. -/
def getSprintUrgency (startDateN : Option Int) (endDateN today : Int) : UrgencyLevel :=
  let daysRemaining := sprintDaysRemaining endDateN today
  if (match startDateN with | some s => decide (today < s) | Option.none => false) then
    UrgencyLevel.future
  else if daysRemaining < 0 then UrgencyLevel.overdue
  else if daysRemaining ≤ 2 then UrgencyLevel.critical
  else if daysRemaining ≤ 6 then UrgencyLevel.warning
  else if daysRemaining ≤ 14 then UrgencyLevel.current
  else UrgencyLevel.none

/-! ## Azure DevOps work-item fetch (`ado.service.ts`) -/

/-- The batch-splitting loop of `queryWorkItems`:
`for (let i = 0; i < allIds.length; i += batchSize) slice(i, i + 200)`. -/
def chunkIds (ids : List Int) : List (List Int) :=
  if ids.isEmpty then []
  else ids.take 200 :: chunkIds (ids.drop 200)
termination_by ids.length
decreasing_by
  simp only [List.length_drop]
  rename_i h
  have : ids.length ≠ 0 := by
    simpa [List.isEmpty_iff_length_eq_zero] using h
  omega

/-- The id lists of the requests issued by `queryWorkItems` for a given
WIQL result: none when the query returned no ids, one per batch of 200
when there are more than 200 ids, and a single request otherwise. -/
def queryBatches (ids : List Int) : List (List Int) :=
  if ids.length = 0 then []
  else if ids.length > 200 then chunkIds ids
  else [ids]

/-- The collection `queryWorkItems` produces from the per-request fetch
results: the concatenation of the chunk results in chunk order
(`results.flat()`; trivially so for zero or one request).  `W` is the
provider's work-item payload type (`AdoWorkItem`), opaque here; `fetch`
is the provider's response to one `workitems?ids=...` request. -/
def queryPublished {W : Type} (fetch : List Int → List W) (ids : List Int) : List W :=
  ((queryBatches ids).map fetch).flatten

/-- Outcome of the `catchError` handler of `queryWorkItems`: the message
pushed on the error channel, and whether the observable resolves to an
empty collection (`of([])`) or rethrows the error to the caller. -/
structure QueryErrorOutcome where
  published : String
  resolvesEmpty : Bool
deriving DecidableEq, Repr

/-- The `catchError` branch of `queryWorkItems`: statuses 400, 401 and
404 get a mapped message and resolve to an empty collection; every other
failure appends the transport message (or `Unknown error`) and rethrows.
`errMsg` is `error.message` (`none` for `undefined`). -/
def handleQueryError (project : String) (status : Int) (errMsg : Option String) :
    QueryErrorOutcome :=
  let base := "Failed to query work items: "
  if status = 400 then
    { published := base ++ "Invalid query syntax for project \"" ++ project ++
        "\". Check project name spelling.", resolvesEmpty := true }
  else if status = 401 then
    { published := base ++ "Authentication failed for project \"" ++ project ++
        "\". Check your PAT.", resolvesEmpty := true }
  else if status = 404 then
    { published := base ++ "Project \"" ++ project ++
        "\" not found. Check organization and project name.", resolvesEmpty := true }
  else
    { published := base ++ jsOrStr errMsg "Unknown error", resolvesEmpty := false }

/-! ## Rate-limited chat client (`github-ai.service.ts`) -/

/-- The `RateLimitInfo` record; `resetTime` carries epoch milliseconds. -/
structure RateLimitInfo where
  callsUsed : Int
  callsRemaining : Option Int
  callsLimit : Option Int
  resetTime : Option Int
deriving DecidableEq, Repr

/-- `updateRateLimitFromHeaders`: increment the used counter, and take
each of remaining / limit / reset from its response header when present.
Header values are modelled post-`parseInt` (the reset header is epoch
seconds, stored multiplied by 1000).  When the remaining header is absent
on a successful call and the stored remaining is exactly `0`, the stored
value is cleared to `null` instead of being retained. -/
def updateRateLimitFromHeaders (remaining limit reset : Option Int) (isSuccess : Bool)
    (current : RateLimitInfo) : RateLimitInfo :=
  { callsUsed := current.callsUsed + 1
    callsRemaining :=
      match remaining with
      | some r => some r
      | Option.none =>
        if isSuccess ∧ current.callsRemaining = some 0 then Option.none
        else current.callsRemaining
    callsLimit :=
      match limit with
      | some l => some l
      | Option.none => current.callsLimit
    resetTime :=
      match reset with
      | some r => some (r * 1000)
      | Option.none => current.resetTime }

/-! ## Local persisted list stores -/

/-- A `Partial<Task>` argument of `updateTask`: for each field, `none`
means the key is absent from the partial object and the spread
`{ ...task, ...updates }` keeps the task's value; `some v` means the key
is present and overwrites.  For fields that are themselves optional in
`Task`, a present key carries an `Option` (so `some none` is an explicit
`undefined`). -/
structure TaskPatch where
  id : Option String := Option.none
  title : Option String := Option.none
  description : Option (Option String) := Option.none
  completed : Option Bool := Option.none
  dueDate : Option (Option Int) := Option.none
  createdAt : Option Int := Option.none
  completedAt : Option (Option Int) := Option.none
  priority : Option (Option TaskPriority) := Option.none
  tags : Option (Option (List String)) := Option.none
  timeTracked : Option (Option Int) := Option.none
  isTimeRunning : Option (Option Bool) := Option.none
  timeStartedAt : Option (Option Int) := Option.none
deriving DecidableEq, Repr

/-- The JavaScript spread merge `{ ...task, ...updates }`. -/
def applyTaskPatch (t : Task) (p : TaskPatch) : Task :=
  { id := p.id.getD t.id
    title := p.title.getD t.title
    description := p.description.getD t.description
    completed := p.completed.getD t.completed
    dueDate := p.dueDate.getD t.dueDate
    createdAt := p.createdAt.getD t.createdAt
    completedAt := p.completedAt.getD t.completedAt
    priority := p.priority.getD t.priority
    tags := p.tags.getD t.tags
    timeTracked := p.timeTracked.getD t.timeTracked
    isTimeRunning := p.isTimeRunning.getD t.isTimeRunning
    timeStartedAt := p.timeStartedAt.getD t.timeStartedAt }

/-- `updateTask` of `task.service.ts` at the collection level: merge the
partial fields into every task whose id matches. -/
def updateTask (id : String) (p : TaskPatch) (tasks : List Task) : List Task :=
  tasks.map (fun t => if t.id = id then applyTaskPatch t p else t)

/-- The frame conditions of a spread merge, field by field: a field absent
from the partial object is unchanged, a present field takes the given
value. -/
def patchFrame (t0 : Task) (p : TaskPatch) (t : Task) : Prop :=
  (p.id = Option.none → t.id = t0.id) ∧ (∀ v, p.id = some v → t.id = v) ∧
  (p.title = Option.none → t.title = t0.title) ∧ (∀ v, p.title = some v → t.title = v) ∧
  (p.description = Option.none → t.description = t0.description) ∧
  (∀ v, p.description = some v → t.description = v) ∧
  (p.completed = Option.none → t.completed = t0.completed) ∧
  (∀ v, p.completed = some v → t.completed = v) ∧
  (p.dueDate = Option.none → t.dueDate = t0.dueDate) ∧
  (∀ v, p.dueDate = some v → t.dueDate = v) ∧
  (p.createdAt = Option.none → t.createdAt = t0.createdAt) ∧
  (∀ v, p.createdAt = some v → t.createdAt = v) ∧
  (p.completedAt = Option.none → t.completedAt = t0.completedAt) ∧
  (∀ v, p.completedAt = some v → t.completedAt = v) ∧
  (p.priority = Option.none → t.priority = t0.priority) ∧
  (∀ v, p.priority = some v → t.priority = v) ∧
  (p.tags = Option.none → t.tags = t0.tags) ∧ (∀ v, p.tags = some v → t.tags = v) ∧
  (p.timeTracked = Option.none → t.timeTracked = t0.timeTracked) ∧
  (∀ v, p.timeTracked = some v → t.timeTracked = v) ∧
  (p.isTimeRunning = Option.none → t.isTimeRunning = t0.isTimeRunning) ∧
  (∀ v, p.isTimeRunning = some v → t.isTimeRunning = v) ∧
  (p.timeStartedAt = Option.none → t.timeStartedAt = t0.timeStartedAt) ∧
  (∀ v, p.timeStartedAt = some v → t.timeStartedAt = v)

/-- The task store's state: the `BehaviorSubject` snapshot and the
`localStorage` blob under `tasks-data` (`none` when the key is absent). -/
structure TaskStore where
  memory : List Task
  durable : Option (List Task)
deriving DecidableEq, Repr

/-- `saveTasks` of `task.service.ts`: `localStorage.setItem` then
`tasksSubject.next`, both inside one `try`.  `ok = false` models a
throwing storage write (e.g. quota): the error is logged and swallowed,
and — because the throw happens before `next` — neither the durable blob
nor the in-memory snapshot changes. -/
def saveTasks (ok : Bool) (tasks : List Task) (st : TaskStore) : TaskStore :=
  if ok then { memory := tasks, durable := some tasks } else st

/-- Store-level `updateTask`. -/
def updateTaskSt (ok : Bool) (id : String) (p : TaskPatch) (st : TaskStore) : TaskStore :=
  saveTasks ok (updateTask id p st.memory) st

/-- Store-level `deleteTask`: `tasks.filter(task => task.id !== id)`. -/
def deleteTaskSt (ok : Bool) (id : String) (st : TaskStore) : TaskStore :=
  saveTasks ok (st.memory.filter (fun t => ¬ t.id = id)) st

/-- Store-level `clearAllTasks`: `saveTasks([])`. -/
def clearAllTasksSt (ok : Bool) (st : TaskStore) : TaskStore :=
  saveTasks ok [] st

/-- Store-level `startTimeTracking` (every code path of the method ends in
a `saveTasks` of the mapped collection). -/
def startTimeTrackingSt (ok : Bool) (now : Int) (id : String) (st : TaskStore) : TaskStore :=
  saveTasks ok (startTimeTracking now id st.memory) st

/-- The outcome of `JSON.parse` on an import payload, as the import
methods discriminate it: a parse failure (throw), a well-formed array of
items, or a successfully parsed value that is not an array of items. -/
inductive ParsedJson (α : Type) where
  | parseError
  | arrayOf (items : List α)
  | nonArray
deriving DecidableEq, Repr

/-- `importFromJson` of `task.service.ts`, returning the thrown error
message (if any) and the resulting store state.  A parse failure throws
inside the `try`; a parsed non-array value makes the `forEach` date
conversion throw inside the `try`; both are re-thrown as
`Invalid JSON format` before `saveTasks` runs, so the state is the old
one.  A well-formed array replaces the whole collection. -/
def taskImportFromJson (p : ParsedJson Task) (st : TaskStore) :
    Option String × TaskStore :=
  match p with
  | .parseError => (some "Invalid JSON format", st)
  | .arrayOf items => (Option.none, saveTasks true items st)
  | .nonArray => (some "Invalid JSON format", st)

/-- The `Coworker` interface of `coworker.service.ts`.  `teamsPresence`
is modelled as its two string fields. -/
structure Coworker where
  id : Int
  name : String
  role : Option String := Option.none
  location : String := ""
  timezone : String := ""
  avatarColor : Option String := Option.none
  email : Option String := Option.none
  photoUrl : Option String := Option.none
  presenceAvailability : Option String := Option.none
  presenceActivity : Option String := Option.none
deriving DecidableEq, Repr

/-- The coworker store's state: the subject snapshot and the
`coworkers-data` blob. -/
structure CoworkerStore where
  memory : List Coworker
  durable : Option (List Coworker)
deriving DecidableEq, Repr

/-- `saveCoworkers`: `localStorage.setItem` then `next` (no `try` in this
service; storage is assumed to succeed here). -/
def saveCoworkers (coworkers : List Coworker) (_st : CoworkerStore) : CoworkerStore :=
  { memory := coworkers, durable := some coworkers }

/-- `importFromJson` of `coworker.service.ts`: a parse failure is
re-thrown as `Invalid JSON format`; a parsed array replaces the whole
collection; a parsed value that is **not** an array is silently ignored
(`if (Array.isArray(coworkers))` has no else branch): no error, no state
change. -/
def coworkerImportFromJson (p : ParsedJson Coworker) (st : CoworkerStore) :
    Option String × CoworkerStore :=
  match p with
  | .parseError => (some "Invalid JSON format", st)
  | .arrayOf items => (Option.none, saveCoworkers items st)
  | .nonArray => (Option.none, st)

/-- The caller-supplied fields of `addCoworker`
(`Omit<Coworker, 'id'>`). -/
structure CoworkerFields where
  name : String
  role : Option String := Option.none
  location : String := ""
  timezone : String := ""
  avatarColor : Option String := Option.none
  email : Option String := Option.none
  photoUrl : Option String := Option.none
  presenceAvailability : Option String := Option.none
  presenceActivity : Option String := Option.none
deriving DecidableEq, Repr

/-- `addCoworker`: the fresh id is `Date.now()` (the `now` argument);
`avatarColor` falls back to a random palette colour (the `randColor`
oracle argument) via `||`.  Appends at the end. -/
def addCoworker (now : Int) (randColor : String) (c : CoworkerFields)
    (coworkers : List Coworker) : List Coworker :=
  coworkers ++ [{ id := now
                  name := c.name
                  role := c.role
                  location := c.location
                  timezone := c.timezone
                  avatarColor := some (jsOrStr c.avatarColor randColor)
                  email := c.email
                  photoUrl := c.photoUrl
                  presenceAvailability := c.presenceAvailability
                  presenceActivity := c.presenceActivity }]

/-- `deleteCoworker`: filter by id. -/
def deleteCoworker (id : Int) (coworkers : List Coworker) : List Coworker :=
  coworkers.filter (fun c => ¬ c.id = id)

/-- One session operation on the coworker store, with its clock reading
and colour oracle for adds. -/
inductive CoworkerOp where
  | add (now : Int) (randColor : String) (c : CoworkerFields)
  | remove (id : Int)
deriving DecidableEq, Repr

/-- Apply one coworker operation to the collection. -/
def applyCoworkerOp (op : CoworkerOp) (coworkers : List Coworker) : List Coworker :=
  match op with
  | .add now randColor c => addCoworker now randColor c coworkers
  | .remove id => deleteCoworker id coworkers

/-- Apply a session's operations in order. -/
def applyCoworkerOps (ops : List CoworkerOp) (coworkers : List Coworker) : List Coworker :=
  ops.foldl (fun acc op => applyCoworkerOp op acc) coworkers

/-- The ids of a coworker collection. -/
def coworkerIds (coworkers : List Coworker) : List Int := coworkers.map (fun c => c.id)

/-- The clock readings of the add operations of a session, in order
(these are the ids the adds generate). -/
def addTimes (ops : List CoworkerOp) : List Int :=
  ops.filterMap (fun op => match op with
    | .add now _ _ => some now
    | .remove _ => Option.none)

/-! ## General list helpers -/

/-- In a list whose keys are pairwise distinct, two members with the same
key are the same member. -/
theorem eq_of_mem_of_nodup_keys {α β : Type} (f : α → β) (l : List α)
    (h : (l.map f).Nodup) {a b : α} (ha : a ∈ l) (hb : b ∈ l) (hf : f a = f b) :
    a = b := by
  induction l with
  | nil => cases ha
  | cons x xs ih =>
    simp only [List.map_cons, List.nodup_cons] at h
    rcases List.mem_cons.mp ha with rfl | ha' <;>
      rcases List.mem_cons.mp hb with rfl | hb'
    · rfl
    · exact absurd (hf ▸ List.mem_map_of_mem f hb') h.1
    · exact absurd (hf ▸ List.mem_map_of_mem f ha') h.1
    · exact ih h.2 ha' hb'

/-- In a list whose keys are pairwise distinct, at most one element
carries any given key. -/
theorem countP_key_le_one {α β : Type} [DecidableEq β] (f : α → β) (l : List α)
    (h : (l.map f).Nodup) (k : β) :
    l.countP (fun x => f x = k) ≤ 1 := by
  induction l with
  | nil => simp
  | cons x xs ih =>
    simp only [List.map_cons, List.nodup_cons] at h
    rw [List.countP_cons]
    by_cases hx : f x = k
    · have : xs.countP (fun x => f x = k) = 0 := by
        rw [List.countP_eq_zero]
        intro a ha
        simp only [decide_eq_true_eq]
        intro hak
        exact h.1 (hx ▸ hak ▸ List.mem_map_of_mem f ha)
      simp [hx, this]
    · simpa [hx] using ih h.2

/-- In a list whose keys are pairwise distinct, a member's key occurs
exactly once. -/
theorem countP_key_eq_one {α β : Type} [DecidableEq β] (f : α → β) (l : List α)
    (h : (l.map f).Nodup) {a : α} (ha : a ∈ l) :
    l.countP (fun x => f x = f a) = 1 := by
  have hle := countP_key_le_one f l h (f a)
  have hpos : 0 < l.countP (fun x => f x = f a) :=
    List.countP_pos_iff.mpr ⟨a, ha, by simp⟩
  omega

/-- In a list whose keys are pairwise distinct, `find?` by a member's key
returns that member. -/
theorem find?_key_of_nodup {α β : Type} [DecidableEq β] (f : α → β) (l : List α)
    (h : (l.map f).Nodup) {a : α} (ha : a ∈ l) :
    l.find? (fun x => f x = f a) = some a := by
  induction l with
  | nil => cases ha
  | cons x xs ih =>
    simp only [List.map_cons, List.nodup_cons] at h
    rcases List.mem_cons.mp ha with rfl | ha'
    · simp [List.find?_cons]
    · have hx : ¬ f x = f a := by
        intro hxa
        exact h.1 (hxa ▸ List.mem_map_of_mem f ha')
      simp only [List.find?_cons, decide_eq_false hx]
      exact ih h.2 ha'

/-- `find?` by key commutes with a key-preserving map. -/
theorem find?_key_map {α β : Type} [DecidableEq β] (f : α → β) (g : α → α)
    (hg : ∀ x, f (g x) = f x) (k : β) (l : List α) :
    (l.map g).find? (fun x => f x = k) = (l.find? (fun x => f x = k)).map g := by
  induction l with
  | nil => rfl
  | cons x xs ih =>
    simp only [List.map_cons, List.find?_cons, hg]
    by_cases hx : f x = k
    · simp [hx]
    · simp only [decide_eq_false hx]
      exact ih

/-- A list of length at most one containing a member is that singleton. -/
theorem eq_singleton_of_length_le_one {α : Type} {l : List α} (h : l.length ≤ 1)
    {a : α} (ha : a ∈ l) : l = [a] := by
  match l, ha with
  | [x], ha => simp_all
  | x :: y :: xs, _ => simp at h

/-! ## Claim theorems -/

/-- C7: for a work item whose sprint has started (start date not strictly
after today), the urgency bucket is exactly the days-remaining table of
the spec (`< 0` overdue, `0`–`2` critical, `3`–`6` warning, `7`–`14`
current, `> 14` none, which covers the sample points `-1`, `2`, `6`,
`14`, `20`); and a start date strictly after today yields `future`
regardless of days-remaining. -/
theorem sprint_urgency_buckets (s : Option Int) (e t : Int) :
    ((∀ v, s = some v → v ≤ t) →
      ((getSprintUrgency s e t = UrgencyLevel.overdue ↔ sprintDaysRemaining e t < 0) ∧
       (getSprintUrgency s e t = UrgencyLevel.critical ↔
         0 ≤ sprintDaysRemaining e t ∧ sprintDaysRemaining e t ≤ 2) ∧
       (getSprintUrgency s e t = UrgencyLevel.warning ↔
         3 ≤ sprintDaysRemaining e t ∧ sprintDaysRemaining e t ≤ 6) ∧
       (getSprintUrgency s e t = UrgencyLevel.current ↔
         7 ≤ sprintDaysRemaining e t ∧ sprintDaysRemaining e t ≤ 14) ∧
       (getSprintUrgency s e t = UrgencyLevel.none ↔ 14 < sprintDaysRemaining e t))) ∧
    (∀ v, s = some v → t < v → getSprintUrgency s e t = UrgencyLevel.future) := by
  constructor
  · intro hns
    have hred : getSprintUrgency s e t =
        (if sprintDaysRemaining e t < 0 then UrgencyLevel.overdue
         else if sprintDaysRemaining e t ≤ 2 then UrgencyLevel.critical
         else if sprintDaysRemaining e t ≤ 6 then UrgencyLevel.warning
         else if sprintDaysRemaining e t ≤ 14 then UrgencyLevel.current
         else UrgencyLevel.none) := by
      cases s with
      | none => rfl
      | some v =>
        have hv : ¬ t < v := not_lt.mpr (hns v rfl)
        simp [getSprintUrgency, hv]
    rw [hred]
    set d := sprintDaysRemaining e t with hd
    split_ifs with h1 h2 h3 h4 <;>
      refine ⟨?_, ?_, ?_, ?_, ?_⟩ <;> constructor <;> intro hc <;>
      first
        | omega
        | (exact absurd hc (by decide))
        | rfl
  · intro v hv hlt
    unfold getSprintUrgency
    rw [hv]
    simp [hlt]

/-- C7 witness: a sprint ending yesterday (days-remaining `-1`) is
`overdue`, and one whose start date is tomorrow is `future` even though
its days-remaining is `-1` as well. -/
theorem sprint_urgency_buckets_witness :
    getSprintUrgency (some 0) (-86400000) 0 = UrgencyLevel.overdue ∧
    getSprintUrgency (some 86400000) (-86400000) 0 = UrgencyLevel.future := by
  constructor
  · exact (((sprint_urgency_buckets (some 0) (-86400000) 0).1
      (by intro v hv; cases hv; decide)).1).mpr (by decide)
  · exact (sprint_urgency_buckets (some 86400000) (-86400000) 0).2 86400000 rfl (by decide)

/-- C4 counterexample: a failure with status 500 (outside 400/401/404)
does **not** resolve to an empty collection — the `catchError` branch of
`queryWorkItems` publishes the mapped message and then rethrows
(`throw error`), so the raw error does propagate to the caller,
contradicting the claim's "for every failure status code". -/
theorem query_error_cex :
    (handleQueryError "MyProject" 500 Option.none).resolvesEmpty = false := by decide

/-- C4 (amended): every failed work-item fetch publishes a mapped message
on the error channel, but only statuses 400, 401 and 404 resolve to an
empty collection; any other status publishes
`Failed to query work items: ` plus the transport message (or
`Unknown error`) and rethrows the raw error to the caller. -/
theorem query_error_mapping (project : String) (status : Int) (errMsg : Option String) :
    (status = 400 → handleQueryError project status errMsg =
      { published := "Failed to query work items: Invalid query syntax for project \"" ++
          project ++ "\". Check project name spelling.", resolvesEmpty := true }) ∧
    (status = 401 → handleQueryError project status errMsg =
      { published := "Failed to query work items: Authentication failed for project \"" ++
          project ++ "\". Check your PAT.", resolvesEmpty := true }) ∧
    (status = 404 → handleQueryError project status errMsg =
      { published := "Failed to query work items: Project \"" ++ project ++
          "\" not found. Check organization and project name.", resolvesEmpty := true }) ∧
    (¬ status = 400 → ¬ status = 401 → ¬ status = 404 →
      handleQueryError project status errMsg =
        { published := "Failed to query work items: " ++ jsOrStr errMsg "Unknown error",
          resolvesEmpty := false }) := by
  refine ⟨fun h => ?_, fun h => ?_, fun h => ?_, fun h1 h2 h3 => ?_⟩
  · simp [handleQueryError, h]
  · simp [handleQueryError, h]
  · simp [handleQueryError, h]
  · simp [handleQueryError, h1, h2, h3]

/-- C4 witness: the 401 branch at a concrete project, and the rethrowing
branch at status 500. -/
theorem query_error_mapping_witness :
    handleQueryError "Proj" 401 Option.none =
      { published := "Failed to query work items: Authentication failed for project \"" ++
          "Proj" ++ "\". Check your PAT.", resolvesEmpty := true } ∧
    (handleQueryError "Proj" 500 (some "Http failure")).resolvesEmpty = false := by
  constructor
  · exact (query_error_mapping "Proj" 401 Option.none).2.1 rfl
  · rw [(query_error_mapping "Proj" 500 (some "Http failure")).2.2.2
      (by decide) (by decide) (by decide)]

/-- C6 counterexample: on a successful completion with all rate-limit
headers absent and a stored `callsRemaining` of exactly `0`, the stored
value is cleared to `null` instead of being retained, contradicting
"retains its previous value when the header is absent". -/
theorem rate_limit_update_cex :
    (updateRateLimitFromHeaders Option.none Option.none Option.none true
      { callsUsed := 5, callsRemaining := some 0, callsLimit := some 15,
        resetTime := some 99000 }).callsRemaining ≠ some 0 := by decide

/-- C6 (amended): after a successful chat completion the persisted
calls-used counter increments by exactly 1, and calls-remaining, limit
and reset-time are each overwritten from their response header when
present and retained when absent — except that an absent remaining header
with a stored remaining of exactly `0` clears the stored value to `null`
(the source's deliberate reset of a previously exhausted counter). -/
theorem rate_limit_update (remaining limit reset : Option Int) (cur : RateLimitInfo) :
    (updateRateLimitFromHeaders remaining limit reset true cur).callsUsed =
      cur.callsUsed + 1 ∧
    (∀ v, remaining = some v →
      (updateRateLimitFromHeaders remaining limit reset true cur).callsRemaining = some v) ∧
    (remaining = Option.none → cur.callsRemaining = some 0 →
      (updateRateLimitFromHeaders remaining limit reset true cur).callsRemaining =
        Option.none) ∧
    (remaining = Option.none → ¬ cur.callsRemaining = some 0 →
      (updateRateLimitFromHeaders remaining limit reset true cur).callsRemaining =
        cur.callsRemaining) ∧
    (∀ v, limit = some v →
      (updateRateLimitFromHeaders remaining limit reset true cur).callsLimit = some v) ∧
    (limit = Option.none →
      (updateRateLimitFromHeaders remaining limit reset true cur).callsLimit =
        cur.callsLimit) ∧
    (∀ v, reset = some v →
      (updateRateLimitFromHeaders remaining limit reset true cur).resetTime =
        some (v * 1000)) ∧
    (reset = Option.none →
      (updateRateLimitFromHeaders remaining limit reset true cur).resetTime =
        cur.resetTime) := by
  refine ⟨rfl, ?_, ?_, ?_, ?_, ?_, ?_, ?_⟩ <;>
    intros <;> simp_all [updateRateLimitFromHeaders]

/-- C6 witness: a successful call with a remaining header of `7`, no
limit header, and a reset header of `42` against a concrete stored
counter. -/
theorem rate_limit_update_witness :
    (updateRateLimitFromHeaders (some 7) Option.none (some 42) true
      { callsUsed := 3, callsRemaining := some 9, callsLimit := some 15,
        resetTime := some 1000 }).callsUsed = 4 ∧
    (updateRateLimitFromHeaders (some 7) Option.none (some 42) true
      { callsUsed := 3, callsRemaining := some 9, callsLimit := some 15,
        resetTime := some 1000 }).callsRemaining = some 7 ∧
    (updateRateLimitFromHeaders (some 7) Option.none (some 42) true
      { callsUsed := 3, callsRemaining := some 9, callsLimit := some 15,
        resetTime := some 1000 }).callsLimit = some 15 ∧
    (updateRateLimitFromHeaders (some 7) Option.none (some 42) true
      { callsUsed := 3, callsRemaining := some 9, callsLimit := some 15,
        resetTime := some 1000 }).resetTime = some 42000 := by
  refine ⟨?_, ?_, ?_, ?_⟩
  · exact (rate_limit_update (some 7) Option.none (some 42) _).1
  · exact (rate_limit_update (some 7) Option.none (some 42) _).2.1 7 rfl
  · exact (rate_limit_update (some 7) Option.none (some 42) _).2.2.2.2.2.1 rfl
  · exact (rate_limit_update (some 7) Option.none (some 42) _).2.2.2.2.2.2.1 42 rfl

/-- C3 counterexample: the coworker store's `importFromJson`, given input
that parses successfully but is not an array (e.g. the string `"42"`),
throws nothing and reports no error — the `Array.isArray` guard has no
else branch — whereas the claim requires a `FormatError`.  (The stored
collection is indeed unchanged.) -/
theorem import_snapshot_cex :
    coworkerImportFromJson ParsedJson.nonArray { memory := [], durable := Option.none } =
      (Option.none, { memory := [], durable := Option.none }) := by decide

/-- C3 (amended): `importSnapshot` on the task store replaces the whole
collection on a well-formed item-list parse and fails with
`Invalid JSON format` (state unchanged, in memory and durable storage) on
a parse failure or a parsed non-array value; the coworker store replaces
on any array parse, fails the same way on a parse failure, but *silently
ignores* a successfully parsed non-array value (no error, state
unchanged). -/
theorem import_snapshot_behavior (stT : TaskStore) (stC : CoworkerStore)
    (ts : List Task) (cs : List Coworker) :
    taskImportFromJson (ParsedJson.arrayOf ts) stT =
      (Option.none, { memory := ts, durable := some ts }) ∧
    taskImportFromJson ParsedJson.parseError stT = (some "Invalid JSON format", stT) ∧
    taskImportFromJson ParsedJson.nonArray stT = (some "Invalid JSON format", stT) ∧
    coworkerImportFromJson (ParsedJson.arrayOf cs) stC =
      (Option.none, { memory := cs, durable := some cs }) ∧
    coworkerImportFromJson ParsedJson.parseError stC = (some "Invalid JSON format", stC) ∧
    coworkerImportFromJson ParsedJson.nonArray stC = (Option.none, stC) := by
  refine ⟨?_, rfl, rfl, ?_, rfl, rfl⟩ <;>
    simp [taskImportFromJson, coworkerImportFromJson, saveTasks, saveCoworkers]

/-- C8 counterexample: when the durable write of `saveTasks` throws, the
`tasksSubject.next` call is skipped (it sits after `setItem` inside the
same `try`), so the mutated collection does **not** become the in-memory
state: clearing all tasks under a failing write leaves the old task in
memory, contradicting "the mutated collection remains the store's
authoritative in-memory state". -/
theorem storage_failure_cex :
    (clearAllTasksSt false
      { memory := [{ id := "a", title := "A" }], durable := some [{ id := "a", title := "A" }] }).memory ≠
      ([] : List Task) := by decide

/-- C8 (amended): a failing durable write is logged and swallowed (the
store operation still returns normally), but the mutation is dropped
entirely: both the in-memory snapshot and the durable blob keep their
pre-mutation values; on a successful write both equal the mutated
collection. -/
theorem storage_failure_semantics (id : String) (p : TaskPatch) (st : TaskStore)
    (tasks : List Task) :
    saveTasks false tasks st = st ∧
    updateTaskSt false id p st = st ∧
    deleteTaskSt false id st = st ∧
    clearAllTasksSt false st = st ∧
    (updateTaskSt true id p st).memory = updateTask id p st.memory ∧
    (updateTaskSt true id p st).durable = some (updateTask id p st.memory) := by
  refine ⟨rfl, rfl, rfl, rfl, rfl, rfl⟩

/-- The batching loop's slices concatenate back to the original id
list. -/
theorem chunkIds_flatten (ids : List Int) : (chunkIds ids).flatten = ids := by
  by_cases h : ids.isEmpty = true
  · rw [chunkIds, if_pos h]
    rw [List.isEmpty_iff] at h
    simp [h]
  · rw [chunkIds, if_neg h]
    simp [chunkIds_flatten (ids.drop 200)]
termination_by ids.length
decreasing_by
  simp only [List.length_drop]
  have : ids.length ≠ 0 := by
    simpa [List.isEmpty_iff_length_eq_zero] using h
  omega

/-- Every slice the batching loop produces holds at most 200 ids. -/
theorem chunkIds_le_200 (ids : List Int) : ∀ c ∈ chunkIds ids, c.length ≤ 200 := by
  intro c hc
  by_cases h : ids.isEmpty = true
  · rw [chunkIds, if_pos h] at hc
    cases hc
  · rw [chunkIds, if_neg h] at hc
    rcases List.mem_cons.mp hc with rfl | hc'
    · simp [List.length_take]
    · exact chunkIds_le_200 (ids.drop 200) c hc'
termination_by ids.length
decreasing_by
  simp only [List.length_drop]
  have : ids.length ≠ 0 := by
    simpa [List.isEmpty_iff_length_eq_zero] using h
  omega

/-- On 450 ids the batching loop produces exactly the slice sizes
200, 200, 50. -/
theorem chunkIds_lengths_450 (ids : List Int) (h : ids.length = 450) :
    (chunkIds ids).map List.length = [200, 200, 50] := by
  have h0 : ¬ ids.isEmpty = true := by
    rw [List.isEmpty_iff_length_eq_zero, h]
    omega
  have h1 : ¬ (ids.drop 200).isEmpty = true := by
    simp [List.isEmpty_iff_length_eq_zero, List.length_drop, h]
  have h2 : ¬ ((ids.drop 200).drop 200).isEmpty = true := by
    simp [List.isEmpty_iff_length_eq_zero, List.length_drop, h]
  have h3 : (((ids.drop 200).drop 200).drop 200).isEmpty = true := by
    simp [List.isEmpty_iff_length_eq_zero, List.length_drop, h]
  rw [chunkIds, if_neg h0, chunkIds, if_neg h1, chunkIds, if_neg h2,
    chunkIds, if_pos h3]
  simp [List.length_take, List.length_drop, h]

/-- C2 counterexample: a work-item query whose id list is empty (0 ids,
hence "200 or fewer") issues **no** request at all — `queryWorkItems`
returns early on an empty WIQL result — contradicting the claim's "for
200 or fewer ids a single request is issued". -/
theorem query_batching_cex :
    queryBatches ([] : List Int) = [] ∧ ([] : List Int).length ≤ 200 := by
  exact ⟨rfl, by decide⟩

/-- C2 (amended): for more than 200 ids the fetch splits the id list into
ordered slices of at most 200 (3 slices of sizes 200/200/50 for 450 ids),
fetches each independently, and publishes the concatenation of the chunk
results in chunk order; for 1 to 200 ids exactly one request carrying the
whole id list is issued; for 0 ids no request is issued and the published
collection is empty. -/
theorem query_batching {W : Type} (fetch : List Int → List W) (ids : List Int) :
    (ids.length > 200 →
      queryBatches ids = chunkIds ids ∧
      (∀ c ∈ queryBatches ids, c.length ≤ 200) ∧
      (queryBatches ids).flatten = ids ∧
      queryPublished fetch ids = ((chunkIds ids).map fetch).flatten ∧
      (ids.length = 450 → (queryBatches ids).map List.length = [200, 200, 50])) ∧
    (1 ≤ ids.length → ids.length ≤ 200 → queryBatches ids = [ids] ∧
      queryPublished fetch ids = fetch ids) ∧
    (ids.length = 0 → queryBatches ids = [] ∧
      queryPublished fetch ids = []) := by
  refine ⟨fun hgt => ?_, fun h1 h2 => ?_, fun h0 => ?_⟩
  · have hq : queryBatches ids = chunkIds ids := by
      unfold queryBatches
      rw [if_neg (by omega), if_pos hgt]
    refine ⟨hq, ?_, ?_, ?_, fun h450 => ?_⟩
    · rw [hq]; exact chunkIds_le_200 ids
    · rw [hq]; exact chunkIds_flatten ids
    · unfold queryPublished; rw [hq]
    · rw [hq]; exact chunkIds_lengths_450 ids h450
  · have hq : queryBatches ids = [ids] := by
      unfold queryBatches
      rw [if_neg (by omega), if_neg (by omega)]
    exact ⟨hq, by unfold queryPublished; rw [hq]; simp⟩
  · have hq : queryBatches ids = [] := by
      unfold queryBatches
      rw [if_pos h0]
    exact ⟨hq, by unfold queryPublished; rw [hq]; simp⟩

/-- C2 witness: 450 concrete ids yield chunk sizes 200/200/50 whose
concatenation is the original list, and a 1-id query issues the single
request `[[5]]`. -/
theorem query_batching_witness :
    (queryBatches ((List.range 450).map Int.ofNat)).map List.length = [200, 200, 50] ∧
    (queryBatches ((List.range 450).map Int.ofNat)).flatten =
      (List.range 450).map Int.ofNat ∧
    queryBatches [(5 : Int)] = [[(5 : Int)]] := by
  have hlen : ((List.range 450).map Int.ofNat).length > 200 := by
    simp [List.length_map, List.length_range]
  have h450 : ((List.range 450).map Int.ofNat).length = 450 := by
    simp [List.length_map, List.length_range]
  refine ⟨?_, ?_, ?_⟩
  · exact ((query_batching (fun _ => ([] : List Unit)) _).1 hlen).2.2.2.2 h450
  · exact ((query_batching (fun _ => ([] : List Unit)) _).1 hlen).2.2.1
  · exact ((query_batching (fun _ => ([] : List Unit)) _).2.1 (by decide) (by decide)).1

/-- The spread merge satisfies its own frame conditions. -/
theorem patchFrame_applyTaskPatch (t : Task) (p : TaskPatch) :
    patchFrame t p (applyTaskPatch t p) := by
  unfold patchFrame
  repeat' constructor
  all_goals intros
  all_goals simp_all [applyTaskPatch]

/-- When the partial object does not carry an `id` key, the merge keeps
every task's id, so `updateTask` preserves the id sequence. -/
theorem taskIds_updateTask (i : String) (p : TaskPatch) (tasks : List Task)
    (hpid : p.id = Option.none) :
    taskIds (updateTask i p tasks) = taskIds tasks := by
  unfold taskIds updateTask
  rw [List.map_map]
  apply List.map_congr_left
  intro t _
  by_cases h : t.id = i <;> simp [h, applyTaskPatch, hpid]

/-- C5 counterexample: `updateTask` with a partial object that carries an
`id` key rewrites the matching item's id (the spread
`{ ...task, ...updates }` overwrites every present key, `id` and
`createdAt` included), contradicting "for every partialFields input, the
update never changes the item's id or creation timestamp". -/
theorem update_partial_cex :
    updateTask "a" { id := some "b" } [{ id := "a", title := "T", createdAt := 5 }] =
      [{ id := "b", title := "T", createdAt := 5 }] := by decide

/-- C5 (amended): provided the partial object carries neither an `id` nor
a `createdAt` key (and ids are unique, per the data model), updating an
existing id leaves exactly one item with that id, which equals the spread
merge — present fields overwritten, absent fields unchanged, id and
creation timestamp unchanged — while every other item is untouched; an
absent id makes the update a no-op. -/
theorem update_partial_fields (tasks : List Task) (i : String) (p : TaskPatch) (t0 : Task)
    (hnd : (taskIds tasks).Nodup) (hpid : p.id = Option.none)
    (hpca : p.createdAt = Option.none) (ht0 : t0 ∈ tasks) (hi : t0.id = i) :
    (updateTask i p tasks).countP (fun t => t.id = i) = 1 ∧
    (∀ t ∈ updateTask i p tasks, t.id = i →
      t = applyTaskPatch t0 p ∧ t.id = t0.id ∧ t.createdAt = t0.createdAt ∧
        patchFrame t0 p t) ∧
    (∀ t ∈ updateTask i p tasks, ¬ t.id = i → t ∈ tasks) ∧
    (∀ j, ¬ j ∈ taskIds tasks → updateTask j p tasks = tasks) := by
  have hgid : ∀ t : Task, (if t.id = i then applyTaskPatch t p else t).id = t.id := by
    intro t
    by_cases h : t.id = i <;> simp [h, applyTaskPatch, hpid]
  refine ⟨?_, ?_, ?_, ?_⟩
  · unfold updateTask
    rw [List.countP_map]
    have hc : tasks.countP
        ((fun t : Task => decide (t.id = i)) ∘
          (fun t => if t.id = i then applyTaskPatch t p else t)) =
        tasks.countP (fun t => decide (t.id = i)) := by
      apply List.countP_congr
      intro t _
      simp [Function.comp, hgid t]
    rw [hc]
    have hone := countP_key_eq_one (fun t : Task => t.id) tasks hnd ht0
    simp only [hi] at hone
    exact hone
  · intro t ht hti
    rcases List.mem_map.mp ht with ⟨s, hs, hst⟩
    by_cases hsi : s.id = i
    · rw [if_pos hsi] at hst
      have hs0 : s = t0 := by
        apply eq_of_mem_of_nodup_keys (fun t : Task => t.id) tasks hnd hs ht0
        rw [hsi, hi]
      subst hs0
      subst hst
      refine ⟨rfl, ?_, ?_, patchFrame_applyTaskPatch s p⟩
      · simp [applyTaskPatch, hpid]
      · simp [applyTaskPatch, hpca]
    · rw [if_neg hsi] at hst
      subst hst
      exact absurd hti hsi
  · intro t ht hti
    rcases List.mem_map.mp ht with ⟨s, hs, hst⟩
    by_cases hsi : s.id = i
    · rw [if_pos hsi] at hst
      exfalso
      apply hti
      rw [← hst]
      simp [applyTaskPatch, hpid, hsi]
    · rw [if_neg hsi] at hst
      exact hst ▸ hs
  · intro j hj
    unfold updateTask
    have : ∀ t ∈ tasks, (if t.id = j then applyTaskPatch t p else t) = t := by
      intro t ht
      rw [if_neg]
      intro he
      exact hj (he ▸ List.mem_map_of_mem (fun t : Task => t.id) ht)
    rw [List.map_congr_left this, List.map_id']

/-- C5 witness: merging `{ title := "New" }` into a two-item collection
leaves exactly one item with the target id, and updating an absent id is
a no-op. -/
theorem update_partial_fields_witness :
    (updateTask "a" { title := some "New" }
      [{ id := "a", title := "Old", createdAt := 5 }, { id := "c", title := "C" }]).countP
      (fun t => t.id = "a") = 1 ∧
    updateTask "zz" { title := some "New" }
      [{ id := "a", title := "Old", createdAt := 5 }, { id := "c", title := "C" }] =
      [{ id := "a", title := "Old", createdAt := 5 }, { id := "c", title := "C" }] := by
  constructor
  · exact (update_partial_fields
      [{ id := "a", title := "Old", createdAt := 5 }, { id := "c", title := "C" }]
      "a" { title := some "New" } { id := "a", title := "Old", createdAt := 5 }
      (by decide) rfl rfl (by decide) rfl).1
  · exact (update_partial_fields
      [{ id := "a", title := "Old", createdAt := 5 }, { id := "c", title := "C" }]
      "a" { title := some "New" } { id := "a", title := "Old", createdAt := 5 }
      (by decide) rfl rfl (by decide) rfl).2.2.2 "zz" (by decide)

/-- `addTimes` of a session starting with an add. -/
theorem addTimes_cons_add (now : Int) (col : String) (c : CoworkerFields)
    (ops : List CoworkerOp) :
    addTimes (CoworkerOp.add now col c :: ops) = now :: addTimes ops := by
  simp [addTimes, List.filterMap_cons]

/-- `addTimes` of a session starting with a remove. -/
theorem addTimes_cons_remove (rid : Int) (ops : List CoworkerOp) :
    addTimes (CoworkerOp.remove rid :: ops) = addTimes ops := by
  simp [addTimes, List.filterMap_cons]

/-- The ids of any state reachable by a session's operations are among
the initial ids and the clock readings of the adds performed so far. -/
theorem coworkerIds_applyOps_subset (ops : List CoworkerOp) (init : List Coworker) :
    ∀ x ∈ coworkerIds (applyCoworkerOps ops init), x ∈ coworkerIds init ++ addTimes ops := by
  induction ops generalizing init with
  | nil =>
    intro x hx
    rw [List.mem_append]
    exact Or.inl (by simpa [applyCoworkerOps] using hx)
  | cons op ops ih =>
    intro x hx
    have hx1 : x ∈ coworkerIds (applyCoworkerOp op init) ++ addTimes ops :=
      ih (applyCoworkerOp op init) x (by simpa [applyCoworkerOps] using hx)
    rcases List.mem_append.mp hx1 with h | h
    · cases op with
      | add now col c =>
        have hids : coworkerIds (applyCoworkerOp (CoworkerOp.add now col c) init) =
            coworkerIds init ++ [now] := by
          simp [applyCoworkerOp, addCoworker, coworkerIds]
        rw [hids] at h
        rcases List.mem_append.mp h with h' | h'
        · exact List.mem_append.mpr (Or.inl h')
        · rw [List.mem_singleton] at h'
          subst h'
          refine List.mem_append.mpr (Or.inr ?_)
          rw [addTimes_cons_add]
          exact List.mem_cons_self _ _
      | remove rid =>
        refine List.mem_append.mpr (Or.inl ?_)
        have h2 : x ∈ coworkerIds (deleteCoworker rid init) := by
          simpa [applyCoworkerOp] using h
        rcases List.mem_map.mp h2 with ⟨cc, hcc, rfl⟩
        exact List.mem_map_of_mem _ (List.mem_of_mem_filter hcc)
    · refine List.mem_append.mpr (Or.inr ?_)
      cases op with
      | add now col c =>
        rw [addTimes_cons_add]
        exact List.mem_cons_of_mem _ h
      | remove rid =>
        rw [addTimes_cons_remove]
        exact h

/-- C9 counterexample: `addCoworker` uses `Date.now()` alone as the id,
so two adds observing the same millisecond generate the same id: after
one add at instant 5, the id the next add at instant 5 will return (5)
is already in the collection, and performing it duplicates the id. -/
theorem add_unique_ids_cex :
    (5 : Int) ∈ coworkerIds (applyCoworkerOps
      [CoworkerOp.add 5 "#ef4444" { name := "x" }] []) ∧
    ¬ (coworkerIds (applyCoworkerOps
      [CoworkerOp.add 5 "#ef4444" { name := "x" },
       CoworkerOp.add 5 "#ef4444" { name := "y" }] [])).Nodup := by
  constructor
  · decide
  · decide

/-- C9 (amended): provided no two adds of the session observe the same
clock instant and no pre-existing item carries an id equal to one of
those instants, each add's generated id is distinct from every id present
in every earlier (and the current) state of the session — in particular
from all current ids and from all ids previously added and removed. -/
theorem add_unique_ids (init : List Coworker) (ops : List CoworkerOp)
    (htimes : (addTimes ops).Nodup)
    (hdisj : ∀ x ∈ addTimes ops, ¬ x ∈ coworkerIds init) :
    ∀ k j : Nat, j ≤ k →
      ∀ now col c, ops[k]? = some (CoworkerOp.add now col c) →
        ¬ now ∈ coworkerIds (applyCoworkerOps (ops.take j) init) := by
  intro k j hjk now col c hk hmem
  have hsplit : addTimes (ops.take j) ++ addTimes (ops.drop j) = addTimes ops := by
    rw [addTimes, addTimes, addTimes, ← List.filterMap_append, List.take_append_drop]
  have hnow_drop : now ∈ addTimes (ops.drop j) := by
    have hkd : (ops.drop j)[k - j]? = some (CoworkerOp.add now col c) := by
      rw [List.getElem?_drop]
      rwa [Nat.add_sub_cancel' hjk]
    have : CoworkerOp.add now col c ∈ ops.drop j := by
      exact List.getElem?_mem hkd
    rw [addTimes, List.mem_filterMap]
    exact ⟨_, this, rfl⟩
  have hnow_ops : now ∈ addTimes ops := by
    rw [← hsplit]
    exact List.mem_append.mpr (Or.inr hnow_drop)
  have hnot_take : ¬ now ∈ addTimes (ops.take j) := by
    intro hmem'
    have hnd : (addTimes (ops.take j) ++ addTimes (ops.drop j)).Nodup := by
      rw [hsplit]; exact htimes
    exact (List.disjoint_of_nodup_append hnd) hmem' hnow_drop
  rcases List.mem_append.mp (coworkerIds_applyOps_subset (ops.take j) init now hmem)
    with h | h
  · exact hdisj now hnow_ops h
  · exact hnot_take h

/-- C9 witness: with distinct clock instants 1 and 2 on an empty store,
the id generated by the second add (2) is absent from the state after the
first add. -/
theorem add_unique_ids_witness :
    ¬ (2 : Int) ∈ coworkerIds (applyCoworkerOps
      ([CoworkerOp.add 1 "#ef4444" { name := "x" },
        CoworkerOp.add 2 "#ef4444" { name := "y" }].take 1) []) := by
  exact add_unique_ids []
    [CoworkerOp.add 1 "#ef4444" { name := "x" }, CoworkerOp.add 2 "#ef4444" { name := "y" }]
    (by decide) (by decide) 1 1 (le_refl 1) 2 "#ef4444" { name := "y" } (by decide)

/-- A key-preserving pointwise update keeps the id sequence. -/
theorem taskIds_map_id_preserving (g : Task → Task) (hg : ∀ t, (g t).id = t.id)
    (l : List Task) : taskIds (l.map g) = taskIds l := by
  unfold taskIds
  rw [List.map_map]
  exact List.map_congr_left (fun t _ => hg t)

/-- `find?` by id commutes with an id-preserving pointwise update. -/
theorem find?_id_map (g : Task → Task) (hg : ∀ t, (g t).id = t.id) (i : String)
    (l : List Task) :
    (l.map g).find? (fun t => t.id = i) = (l.find? (fun t => t.id = i)).map g := by
  exact find?_key_map (fun t : Task => t.id) g hg i l

/-- In a collection with pairwise-distinct ids, `find?` by a member's id
returns that member. -/
theorem find?_id_of_nodup (l : List Task) (hnd : (taskIds l).Nodup) {A : Task}
    (hA : A ∈ l) : l.find? (fun t => t.id = A.id) = some A := by
  exact find?_key_of_nodup (fun t : Task => t.id) l hnd hA

/-- `stopTimeTracking` never changes the id sequence. -/
theorem taskIds_stopTimeTracking (now : Int) (i : String) (l : List Task) :
    taskIds (stopTimeTracking now i l) = taskIds l := by
  cases h : l.find? (fun t => t.id = i) with
  | none => simp only [stopTimeTracking, h]
  | some task =>
    simp only [stopTimeTracking, h]
    by_cases hc : jsTruthyBool task.isTimeRunning = true ∧ jsTruthyNum task.timeStartedAt = true
    · rw [if_neg (not_not_intro hc)]
      apply taskIds_map_id_preserving
      intro t
      by_cases ht : t.id = i <;> simp [ht]
    · rw [if_pos hc]

/-- A task that is flagged running after a stop was already (and
unchanged) in the collection before it: stopping never sets the flag. -/
theorem mem_of_flag_stopTimeTracking (now : Int) (i : String) (l : List Task) :
    ∀ t' ∈ stopTimeTracking now i l, jsTruthyBool t'.isTimeRunning = true → t' ∈ l := by
  intro t' ht' hflag
  cases h : l.find? (fun t => t.id = i) with
  | none =>
    simp only [stopTimeTracking, h] at ht'
    exact ht'
  | some task =>
    simp only [stopTimeTracking, h] at ht'
    by_cases hc : jsTruthyBool task.isTimeRunning = true ∧ jsTruthyNum task.timeStartedAt = true
    · rw [if_neg (not_not_intro hc)] at ht'
      rcases List.mem_map.mp ht' with ⟨t, htl, rfl⟩
      by_cases hti : t.id = i
      · rw [if_pos hti] at hflag
        simp [jsTruthyBool] at hflag
      · rw [if_neg hti]
        exact htl
    · rw [if_pos hc] at ht'
      exact ht'

/-- Stopping cannot increase the number of running tasks. -/
theorem countRunning_stopTimeTracking_le (now : Int) (i : String) (l : List Task) :
    countRunning (stopTimeTracking now i l) ≤ countRunning l := by
  cases h : l.find? (fun t => t.id = i) with
  | none => simp only [stopTimeTracking, h]; exact le_refl _
  | some task =>
    simp only [countRunning, stopTimeTracking, h]
    by_cases hc : jsTruthyBool task.isTimeRunning = true ∧ jsTruthyNum task.timeStartedAt = true
    · rw [if_neg (not_not_intro hc)]
      rw [List.countP_map]
      apply List.countP_mono_left
      intro t _ hflag
      by_cases hti : t.id = i
      · simp [Function.comp, hti, jsTruthyBool] at hflag
      · simpa [Function.comp, hti] using hflag
    · rw [if_pos hc]

/-- Stopping preserves timer well-formedness. -/
theorem WFtimers_stopTimeTracking (now : Int) (i : String) (l : List Task)
    (h : WFtimers l) : WFtimers (stopTimeTracking now i l) := by
  intro t' ht' hflag
  exact h t' (mem_of_flag_stopTimeTracking now i l t' ht' hflag) hflag

/-- Stopping one id leaves the `find?` result for any other id alone. -/
theorem find?_stopTimeTracking_ne (now : Int) (j i : String) (l : List Task)
    (hij : ¬ i = j) :
    (stopTimeTracking now j l).find? (fun t => t.id = i) =
      l.find? (fun t => t.id = i) := by
  cases h : l.find? (fun t => t.id = j) with
  | none => simp only [stopTimeTracking, h]
  | some task =>
    simp only [stopTimeTracking, h]
    by_cases hc : jsTruthyBool task.isTimeRunning = true ∧ jsTruthyNum task.timeStartedAt = true
    · rw [if_neg (not_not_intro hc)]
      rw [find?_id_map _ (fun t => by by_cases ht : t.id = j <;> simp [ht]) i l]
      cases hf : l.find? (fun t => t.id = i) with
      | none => rfl
      | some t =>
        have hti : t.id = i := by simpa using List.find?_some hf
        simp only [Option.map_some']
        rw [if_neg (by rw [hti]; exact hij)]
    · rw [if_pos hc]

/-- When the found task is running with a truthy start instant,
`stopTimeTracking` is exactly the pointwise stop-update computed from
that task. -/
theorem stopTimeTracking_fires (now : Int) (l : List Task) (A : Task)
    (hfind : l.find? (fun t => t.id = A.id) = some A)
    (hflag : jsTruthyBool A.isTimeRunning = true)
    (hstart : jsTruthyNum A.timeStartedAt = true) :
    stopTimeTracking now A.id l = l.map (fun t =>
      if t.id = A.id then
        { t with isTimeRunning := some false, timeStartedAt := Option.none,
                 timeTracked := some (A.timeTracked.getD 0 +
                   jsFloorDiv (now - A.timeStartedAt.getD 0) 1000) }
      else t) := by
  simp only [stopTimeTracking, hfind]
  rw [if_neg (not_not_intro ⟨hflag, hstart⟩)]

/-- A fold of stops keeps the id sequence. -/
theorem foldl_stop_taskIds (now : Int) (r : List Task) (acc : List Task) :
    taskIds (r.foldl (fun a t => stopTimeTracking now t.id a) acc) = taskIds acc := by
  induction r generalizing acc with
  | nil => rfl
  | cons x xs ih =>
    rw [List.foldl_cons, ih, taskIds_stopTimeTracking]

/-- A task flagged running after a fold of stops was already in the
accumulator before the fold. -/
theorem foldl_stop_flag_mem (now : Int) (r : List Task) (acc : List Task) :
    ∀ t' ∈ r.foldl (fun a t => stopTimeTracking now t.id a) acc,
      jsTruthyBool t'.isTimeRunning = true → t' ∈ acc := by
  induction r generalizing acc with
  | nil => exact fun t' ht' _ => ht'
  | cons x xs ih =>
    intro t' ht' hf
    rw [List.foldl_cons] at ht'
    exact mem_of_flag_stopTimeTracking now x.id acc t' (ih _ t' ht' hf) hf

/-- A fold of stops over tasks whose ids all differ from `i` leaves the
`find?` result for `i` alone. -/
theorem foldl_stop_find_ne (now : Int) (r : List Task) (acc : List Task) (i : String)
    (hr : ∀ t ∈ r, ¬ t.id = i) :
    (r.foldl (fun a t => stopTimeTracking now t.id a) acc).find? (fun t => t.id = i) =
      acc.find? (fun t => t.id = i) := by
  induction r generalizing acc with
  | nil => rfl
  | cons x xs ih =>
    rw [List.foldl_cons, ih _ (fun t ht => hr t (List.mem_cons_of_mem x ht)),
      find?_stopTimeTracking_ne now x.id i acc
        (fun he => hr x (List.mem_cons_self x xs) (he.symm ▸ rfl))]

/-- C10: on a collection whose ids are unique (the data-model invariant)
holding a running timer on item `R` (flag set, nonzero recorded start
instant), `startTimeTracking` with an id not present still stops `R` —
its flag clears and its accumulated total grows by the elapsed whole
seconds — persists and republishes the collection, and no item gains a
running flag (every task flagged afterwards is an unchanged member of the
old collection). -/
theorem start_absent_id_stops_running (st : TaskStore) (R : Task) (now : Int)
    (tid : String)
    (hnd : (taskIds st.memory).Nodup) (hR : R ∈ st.memory)
    (hflag : jsTruthyBool R.isTimeRunning = true)
    (hstart : jsTruthyNum R.timeStartedAt = true)
    (htid : ¬ tid ∈ taskIds st.memory) :
    (startTimeTracking now tid st.memory).find? (fun t => t.id = R.id) =
      some { R with isTimeRunning := some false, timeStartedAt := Option.none,
                    timeTracked := some (R.timeTracked.getD 0 +
                      jsFloorDiv (now - R.timeStartedAt.getD 0) 1000) } ∧
    (∀ t' ∈ startTimeTracking now tid st.memory,
      jsTruthyBool t'.isTimeRunning = true → t' ∈ st.memory) ∧
    (startTimeTrackingSt true now tid st).memory = startTimeTracking now tid st.memory ∧
    (startTimeTrackingSt true now tid st).durable =
      some (startTimeTracking now tid st.memory) := by
  set l := st.memory with hl
  have hrts : R ∈ l.filter (fun t => jsTruthyBool t.isTimeRunning) :=
    List.mem_filter.mpr ⟨hR, hflag⟩
  obtain ⟨r1, r2, hsplit⟩ := List.append_of_mem hrts
  have hnd' : (l.map (fun t : Task => t.id)).Nodup := hnd
  have hndf : ((l.filter (fun t => jsTruthyBool t.isTimeRunning)).map
      (fun t : Task => t.id)).Nodup :=
    List.Nodup.sublist (List.Sublist.map (fun t : Task => t.id)
      (List.filter_sublist l)) hnd'
  have hnd2 : ((r1 ++ R :: r2).map (fun t : Task => t.id)).Nodup := hsplit ▸ hndf
  simp only [List.map_append, List.map_cons] at hnd2
  have h1 : ∀ t ∈ r1, ¬ t.id = R.id := by
    intro t ht he
    exact (List.disjoint_of_nodup_append hnd2)
      (List.mem_map_of_mem (fun t : Task => t.id) ht)
      (he ▸ List.mem_cons_self _ _)
  have h2 : ∀ t ∈ r2, ¬ t.id = R.id := by
    intro t ht he
    have hc : (R.id :: r2.map (fun t : Task => t.id)).Nodup :=
      List.Nodup.of_append_right hnd2
    exact (List.nodup_cons.mp hc).1
      (he ▸ List.mem_map_of_mem (fun t : Task => t.id) ht)
  set afterStops :=
    (l.filter (fun t => jsTruthyBool t.isTimeRunning)).foldl
      (fun acc t => stopTimeTracking now t.id acc) l with hafter
  have hfold : afterStops =
      r2.foldl (fun acc t => stopTimeTracking now t.id acc)
        (stopTimeTracking now R.id
          (r1.foldl (fun acc t => stopTimeTracking now t.id acc) l)) := by
    rw [hafter, hsplit, List.foldl_append, List.foldl_cons]
  have hfind1 : (r1.foldl (fun acc t => stopTimeTracking now t.id acc) l).find?
      (fun t => t.id = R.id) = some R := by
    rw [foldl_stop_find_ne now r1 l R.id h1]
    exact find?_id_of_nodup l hnd hR
  have hstop : stopTimeTracking now R.id
      (r1.foldl (fun acc t => stopTimeTracking now t.id acc) l) =
      (r1.foldl (fun acc t => stopTimeTracking now t.id acc) l).map (fun t =>
        if t.id = R.id then
          { t with isTimeRunning := some false, timeStartedAt := Option.none,
                   timeTracked := some (R.timeTracked.getD 0 +
                     jsFloorDiv (now - R.timeStartedAt.getD 0) 1000) }
        else t) :=
    stopTimeTracking_fires now _ R hfind1 hflag hstart
  have hfind3 : afterStops.find? (fun t => t.id = R.id) =
      some { R with isTimeRunning := some false, timeStartedAt := Option.none,
                    timeTracked := some (R.timeTracked.getD 0 +
                      jsFloorDiv (now - R.timeStartedAt.getD 0) 1000) } := by
    rw [hfold, foldl_stop_find_ne now r2 _ R.id h2, hstop,
      find?_id_map _ (fun t => by by_cases ht : t.id = R.id <;> simp [ht]) R.id _,
      hfind1, Option.map_some', if_pos rfl]
  have hids : taskIds afterStops = taskIds l := foldl_stop_taskIds now _ l
  have hmapid : afterStops.map (fun t =>
      if t.id = tid then
        { t with isTimeRunning := some true, timeStartedAt := some now,
                 timeTracked := some (t.timeTracked.getD 0) }
      else t) = afterStops := by
    have hnone : ∀ t ∈ afterStops, (if t.id = tid then
        { t with isTimeRunning := some true, timeStartedAt := some now,
                 timeTracked := some (t.timeTracked.getD 0) }
      else t) = t := by
      intro t ht
      rw [if_neg]
      intro he
      apply htid
      rw [← hids]
      exact he ▸ List.mem_map_of_mem (fun t : Task => t.id) ht
    rw [List.map_congr_left hnone, List.map_id']
  have hstart_eq : startTimeTracking now tid l = afterStops := by
    simp only [startTimeTracking]
    exact hmapid
  refine ⟨?_, ?_, rfl, rfl⟩
  · rw [hstart_eq]
    exact hfind3
  · intro t' ht' hf
    rw [hstart_eq] at ht'
    exact foldl_stop_flag_mem now _ l t' ht' hf

/-- C10 witness: a one-task collection with a running timer (started at
instant 2000, 3 seconds accumulated), asked to start an absent id at
instant 5002, stops the running task and credits it the 3 elapsed
seconds. -/
theorem start_absent_id_stops_running_witness :
    (startTimeTracking 5002 "zz"
      [{ id := "r", title := "R", timeTracked := some 3,
         isTimeRunning := some true, timeStartedAt := some 2000 }]).find?
      (fun t => t.id = "r") =
      some { id := "r", title := "R", timeTracked := some 6,
             isTimeRunning := some false, timeStartedAt := Option.none } := by
  have h := (start_absent_id_stops_running
    { memory := [{ id := "r", title := "R", timeTracked := some 3,
                   isTimeRunning := some true, timeStartedAt := some 2000 }],
      durable := Option.none }
    { id := "r", title := "R", timeTracked := some 3,
      isTimeRunning := some true, timeStartedAt := some 2000 }
    5002 "zz" (by decide) (by decide) (by decide) (by decide) (by decide)).1
  simpa using h

/-- Under unique ids, well-formed timers and at most one running task,
the stop loop at the head of `startTimeTracking` leaves no task
running. -/
theorem afterStops_no_running (now : Int) (l : List Task)
    (hnd : (taskIds l).Nodup) (hwf : WFtimers l) (hone : AtMostOneRunning l) :
    countRunning ((l.filter (fun t => jsTruthyBool t.isTimeRunning)).foldl
      (fun acc t => stopTimeTracking now t.id acc) l) = 0 := by
  cases hf : l.filter (fun t => jsTruthyBool t.isTimeRunning) with
  | nil =>
    rw [List.foldl_nil, countRunning, List.countP_eq_length_filter, hf]
    rfl
  | cons x xs =>
    have hlen : (x :: xs).length ≤ 1 := by
      rw [← hf, ← List.countP_eq_length_filter]
      exact hone
    have hxs : xs = [] := by
      cases xs with
      | nil => rfl
      | cons y ys => simp at hlen
    subst hxs
    have hx := List.mem_filter.mp (hf ▸ List.mem_cons_self x [])
    have hstart := hwf x hx.1 hx.2
    rw [List.foldl_cons, List.foldl_nil,
      stopTimeTracking_fires now l x (find?_id_of_nodup l hnd hx.1) hx.2 hstart,
      countRunning, List.countP_map, List.countP_eq_zero]
    intro t htl
    by_cases hti : t.id = x.id
    · simp [Function.comp, hti, jsTruthyBool]
    · simp only [Function.comp_apply, if_neg hti]
      intro hft
      have htf : t ∈ l.filter (fun t => jsTruthyBool t.isTimeRunning) :=
        List.mem_filter.mpr ⟨htl, by simpa using hft⟩
      rw [hf] at htf
      rcases List.mem_singleton.mp htf with rfl
      exact hti rfl

/-- `startTimeTracking` preserves the id sequence, timer well-formedness
and the at-most-one-running invariant (the clock reading must be nonzero,
as `Date.now()` always is, for the new start instant to be truthy). -/
theorem startTimeTracking_preserve (now : Int) (i : String) (l : List Task)
    (hnd : (taskIds l).Nodup) (hwf : WFtimers l) (hone : AtMostOneRunning l)
    (hnow : ¬ now = 0) :
    taskIds (startTimeTracking now i l) = taskIds l ∧
    WFtimers (startTimeTracking now i l) ∧
    AtMostOneRunning (startTimeTracking now i l) := by
  have hzero := afterStops_no_running now l hnd hwf hone
  set afterStops := (l.filter (fun t => jsTruthyBool t.isTimeRunning)).foldl
      (fun acc t => stopTimeTracking now t.id acc) l with hafter
  have hids : taskIds afterStops = taskIds l := foldl_stop_taskIds now _ l
  have hnz : ∀ t ∈ afterStops, ¬ jsTruthyBool t.isTimeRunning = true := by
    rw [countRunning, List.countP_eq_zero] at hzero
    intro t ht
    simpa using hzero t ht
  have hgid : ∀ t : Task, (if t.id = i then
      { t with isTimeRunning := some true, timeStartedAt := some now,
               timeTracked := some (t.timeTracked.getD 0) } else t).id = t.id := by
    intro t
    by_cases ht : t.id = i <;> simp [ht]
  have hstart_eq : startTimeTracking now i l = afterStops.map (fun t =>
      if t.id = i then
        { t with isTimeRunning := some true, timeStartedAt := some now,
                 timeTracked := some (t.timeTracked.getD 0) } else t) := by
    simp only [startTimeTracking]
  refine ⟨?_, ?_, ?_⟩
  · rw [hstart_eq, taskIds_map_id_preserving _ hgid, hids]
  · intro t' ht' hflag
    rw [hstart_eq] at ht'
    rcases List.mem_map.mp ht' with ⟨t, htl, rfl⟩
    by_cases hti : t.id = i
    · simp [hti, jsTruthyNum, hnow]
    · rw [if_neg hti] at hflag
      exact absurd hflag (hnz t htl)
  · rw [AtMostOneRunning, hstart_eq, countRunning, List.countP_map]
    have hcong : afterStops.countP ((fun t => jsTruthyBool t.isTimeRunning) ∘
        (fun t => if t.id = i then
          { t with isTimeRunning := some true, timeStartedAt := some now,
                   timeTracked := some (t.timeTracked.getD 0) } else t)) =
        afterStops.countP (fun t => t.id = i) := by
      apply List.countP_congr
      intro t ht
      by_cases hti : t.id = i
      · simp [Function.comp, hti, jsTruthyBool]
      · simp [Function.comp, hti, hnz t ht]
    rw [hcong]
    have hnda : (afterStops.map (fun t : Task => t.id)).Nodup := by
      have h' : (taskIds afterStops).Nodup := by rw [hids]; exact hnd
      exact h'
    exact countP_key_le_one (fun t : Task => t.id) afterStops hnda i

/-- `stopTimeTracking` preserves the id sequence, timer well-formedness
and the at-most-one-running invariant. -/
theorem stopTimeTracking_preserve (now : Int) (i : String) (l : List Task)
    (_hnd : (taskIds l).Nodup) (hwf : WFtimers l) (hone : AtMostOneRunning l) :
    taskIds (stopTimeTracking now i l) = taskIds l ∧
    WFtimers (stopTimeTracking now i l) ∧
    AtMostOneRunning (stopTimeTracking now i l) :=
  ⟨taskIds_stopTimeTracking now i l,
   WFtimers_stopTimeTracking now i l hwf,
   le_trans (countRunning_stopTimeTracking_le now i l) hone⟩

/-- `toggleTimeTracking` preserves the id sequence, timer well-formedness
and the at-most-one-running invariant. -/
theorem toggleTimeTracking_preserve (now : Int) (i : String) (l : List Task)
    (hnd : (taskIds l).Nodup) (hwf : WFtimers l) (hone : AtMostOneRunning l)
    (hnow : ¬ now = 0) :
    taskIds (toggleTimeTracking now i l) = taskIds l ∧
    WFtimers (toggleTimeTracking now i l) ∧
    AtMostOneRunning (toggleTimeTracking now i l) := by
  cases h : l.find? (fun t => t.id = i) with
  | none =>
    have he : toggleTimeTracking now i l = l := by simp only [toggleTimeTracking, h]
    rw [he]
    exact ⟨rfl, hwf, hone⟩
  | some task =>
    simp only [toggleTimeTracking, h]
    by_cases hc : jsTruthyBool task.isTimeRunning = true
    · rw [if_pos hc]
      exact stopTimeTracking_preserve now i l hnd hwf hone
    · rw [if_neg hc]
      exact startTimeTracking_preserve now i l hnd hwf hone hnow

/-- One timer operation at a nonzero clock reading preserves the id
sequence, timer well-formedness and the at-most-one-running invariant. -/
theorem applyTimerOp_preserve (op : TimerOp) (l : List Task)
    (hnd : (taskIds l).Nodup) (hwf : WFtimers l) (hone : AtMostOneRunning l)
    (hop : ¬ op.time = 0) :
    taskIds (applyTimerOp op l) = taskIds l ∧
    WFtimers (applyTimerOp op l) ∧
    AtMostOneRunning (applyTimerOp op l) := by
  cases op with
  | start now i => exact startTimeTracking_preserve now i l hnd hwf hone hop
  | stop now i => exact stopTimeTracking_preserve now i l hnd hwf hone
  | toggle now i => exact toggleTimeTracking_preserve now i l hnd hwf hone hop

/-- Any sequence of timer operations at nonzero clock readings preserves
unique ids, timer well-formedness and the at-most-one-running
invariant. -/
theorem applyTimerOps_preserve (ops : List TimerOp) (l : List Task)
    (hnd : (taskIds l).Nodup) (hwf : WFtimers l) (hone : AtMostOneRunning l)
    (hops : ∀ op ∈ ops, ¬ op.time = 0) :
    (taskIds (applyTimerOps ops l)).Nodup ∧
    WFtimers (applyTimerOps ops l) ∧
    AtMostOneRunning (applyTimerOps ops l) := by
  induction ops generalizing l with
  | nil => exact ⟨hnd, hwf, hone⟩
  | cons op ops ih =>
    have hstep := applyTimerOp_preserve op l hnd hwf hone
      (hops op (List.mem_cons_self op ops))
    have hrec := ih (applyTimerOp op l) (hstep.1 ▸ hnd) hstep.2.1 hstep.2.2
      (fun o ho => hops o (List.mem_cons_of_mem op ho))
    simpa only [applyTimerOps, List.foldl_cons] using hrec

/-- C1 counterexample: take a collection satisfying the claim's
hypothesis — item `a` has its timer running (`isTimeRunning` true) and at
most one timer runs — but with `timeStartedAt = 0`, a representable state
reachable through `updateTask`/`importFromJson`.  Because `0` is falsy in
JavaScript, `stopTimeTracking`'s `!task.timeStartedAt` guard returns
early, so starting item `b` does **not** stop `a`: afterwards two items
have `isTimeRunning` true, refuting both "calling startTimeTracking on a
different item B first stops A's timer" and "at most one item in the
collection has isTimeRunning true". -/
theorem timer_exclusive_cex :
    countRunning
      [{ id := "a", title := "A", timeTracked := some 0,
         isTimeRunning := some true, timeStartedAt := some 0 },
       { id := "b", title := "B" }] = 1 ∧
    countRunning (startTimeTracking 7000 "b"
      [{ id := "a", title := "A", timeTracked := some 0,
         isTimeRunning := some true, timeStartedAt := some 0 },
       { id := "b", title := "B" }]) = 2 := by
  constructor
  · decide
  · decide

/-- C1 (amended): on a collection with unique ids whose timer state is
well-formed (every flagged task has a nonzero recorded start instant — as
every state produced by the timer operations themselves is) and at most
one running task, starting item `B` while item `A` runs stops `A` (flag
cleared, accumulated total increased by the elapsed whole seconds since
its start instant) and starts `B` (flag set, start instant recorded);
the result again has at most one running task, and any sequence of
start/stop/toggle operations at nonzero clock instants preserves the
at-most-one-running invariant. -/
theorem timer_exclusive (tasks : List Task) (A B : Task) (now : Int)
    (ops : List TimerOp)
    (hnd : (taskIds tasks).Nodup) (hwf : WFtimers tasks)
    (hone : AtMostOneRunning tasks)
    (hA : A ∈ tasks) (hAflag : jsTruthyBool A.isTimeRunning = true)
    (hB : B ∈ tasks) (hBA : ¬ B.id = A.id) (hnow : ¬ now = 0)
    (hops : ∀ op ∈ ops, ¬ op.time = 0) :
    (startTimeTracking now B.id tasks).find? (fun t => t.id = A.id) =
      some { A with isTimeRunning := some false, timeStartedAt := Option.none,
                    timeTracked := some (A.timeTracked.getD 0 +
                      jsFloorDiv (now - A.timeStartedAt.getD 0) 1000) } ∧
    (startTimeTracking now B.id tasks).find? (fun t => t.id = B.id) =
      some { B with isTimeRunning := some true, timeStartedAt := some now,
                    timeTracked := some (B.timeTracked.getD 0) } ∧
    AtMostOneRunning (startTimeTracking now B.id tasks) ∧
    AtMostOneRunning (applyTimerOps ops tasks) := by
  have hAstart := hwf A hA hAflag
  have hfilter : tasks.filter (fun t => jsTruthyBool t.isTimeRunning) = [A] := by
    apply eq_singleton_of_length_le_one
    · rw [← List.countP_eq_length_filter]
      exact hone
    · exact List.mem_filter.mpr ⟨hA, hAflag⟩
  have hfindA : tasks.find? (fun t => t.id = A.id) = some A :=
    find?_id_of_nodup tasks hnd hA
  have hchain : startTimeTracking now B.id tasks =
      (tasks.map (fun t =>
        if t.id = A.id then
          { t with isTimeRunning := some false, timeStartedAt := Option.none,
                   timeTracked := some (A.timeTracked.getD 0 +
                     jsFloorDiv (now - A.timeStartedAt.getD 0) 1000) }
        else t)).map (fun t =>
        if t.id = B.id then
          { t with isTimeRunning := some true, timeStartedAt := some now,
                   timeTracked := some (t.timeTracked.getD 0) }
        else t) := by
    simp only [startTimeTracking, hfilter, List.foldl_cons, List.foldl_nil]
    rw [stopTimeTracking_fires now tasks A hfindA hAflag hAstart]
  have hgA : ∀ t : Task, (if t.id = A.id then
      { t with isTimeRunning := some false, timeStartedAt := Option.none,
               timeTracked := some (A.timeTracked.getD 0 +
                 jsFloorDiv (now - A.timeStartedAt.getD 0) 1000) }
    else t).id = t.id := by
    intro t
    by_cases ht : t.id = A.id <;> simp [ht]
  have hgB : ∀ t : Task, (if t.id = B.id then
      { t with isTimeRunning := some true, timeStartedAt := some now,
               timeTracked := some (t.timeTracked.getD 0) }
    else t).id = t.id := by
    intro t
    by_cases ht : t.id = B.id <;> simp [ht]
  refine ⟨?_, ?_, ?_, ?_⟩
  · rw [hchain, find?_id_map _ hgB A.id _, find?_id_map _ hgA A.id tasks, hfindA]
    have hAB : ¬ A.id = B.id := fun h => hBA h.symm
    simp [hAB]
  · rw [hchain, find?_id_map _ hgB B.id _, find?_id_map _ hgA B.id tasks,
      find?_id_of_nodup tasks hnd hB]
    simp [hBA]
  · exact (startTimeTracking_preserve now B.id tasks hnd hwf hone hnow).2.2
  · exact (applyTimerOps_preserve ops tasks hnd hwf hone hops).2.2

/-- C1 witness: a two-task collection with `a` validly running (started
at instant 1000 with 10 seconds accumulated); starting `b` at instant
5000 stops `a` with 14 seconds accumulated and starts `b`, and the
one-operation sequence keeps at most one task running. -/
theorem timer_exclusive_witness :
    (startTimeTracking 5000 "b"
      [{ id := "a", title := "A", timeTracked := some 10,
         isTimeRunning := some true, timeStartedAt := some 1000 },
       { id := "b", title := "B" }]).find? (fun t => t.id = "a") =
      some { id := "a", title := "A", timeTracked := some 14,
             isTimeRunning := some false, timeStartedAt := Option.none } ∧
    AtMostOneRunning (applyTimerOps [TimerOp.start 5000 "b"]
      [{ id := "a", title := "A", timeTracked := some 10,
         isTimeRunning := some true, timeStartedAt := some 1000 },
       { id := "b", title := "B" }]) := by
  have h := timer_exclusive
    [{ id := "a", title := "A", timeTracked := some 10,
       isTimeRunning := some true, timeStartedAt := some 1000 },
     { id := "b", title := "B" }]
    { id := "a", title := "A", timeTracked := some 10,
      isTimeRunning := some true, timeStartedAt := some 1000 }
    { id := "b", title := "B" }
    5000 [TimerOp.start 5000 "b"]
    (by decide) (by decide) (by decide) (by decide) (by decide) (by decide)
    (by decide) (by decide) (by decide)
  refine ⟨?_, h.2.2.2⟩
  have h1 := h.1
  simpa using h1

end App
